import Mathlib

/-! Shallow embedding of the bottlenose-inc/go-common-tools repository:
the structured logger of src/logger/logger.go and the metrics
registration wrappers of the metrics package.

The logger's sinks and the operating system are abstracted into an
environment `Env` supplying the outcome of each sink write, buffer
flush and file close, together with the hostname, pid and the raw
textual timestamp that `time.Now().String()` would return.  Writers
are abstract identities (`Writer.stdout` is `os.Stdout`).  Go's
`json.Marshal` on a `map` of string keys sorts the keys bytewise
(equivalently, by code point, since UTF-8 is order preserving) and
escapes strings with its HTML-escaping encoder; both are modelled
exactly below, together with a parser used to state the round-trip
properties. -/

namespace GoCommon

/- ### Characters, decimal digits, braces -/

def lbrace : Char := Char.ofNat 123

def rbrace : Char := Char.ofNat 125

def digitChar (d : Nat) : Char := Char.ofNat (48 + d)

def hexChar (d : Nat) : Char :=
  if d < 10 then Char.ofNat (48 + d) else Char.ofNat (87 + d)

/-- Big-endian decimal digits of a positive number, driven by fuel so that
the definition is structural and kernel-reducible. -/
def natCharsAux : Nat → Nat → List Char
  | 0, _ => []
  | fuel + 1, n => if n = 0 then [] else natCharsAux fuel (n / 10) ++ [digitChar (n % 10)]

def natChars (n : Nat) : List Char :=
  if n = 0 then ['0'] else natCharsAux n n

/-- Decimal rendering of a Go int, as produced by strconv / json.Marshal. -/
def renderInt (i : Int) : List Char :=
  if i < 0 then '-' :: natChars (-i).toNat else natChars i.toNat

/- ### JSON string escaping (Go encoding/json default encoder) -/

/-- Escape of one character exactly as Go's encoding/json encoder with
HTML escaping enabled (the default for json.Marshal): quote, backslash,
newline, carriage return and tab get two-character escapes; the other
control characters and the HTML characters get a \u00XX escape;
U+2028 and U+2029 get their u20XX escape; all else is unchanged. -/
def escapeChar (c : Char) : List Char :=
  if c = '"' then ['\\', '"']
  else if c = '\\' then ['\\', '\\']
  else if c = '\n' then ['\\', 'n']
  else if c = '\r' then ['\\', 'r']
  else if c = '\t' then ['\\', 't']
  else if c = '<' ∨ c = '>' ∨ c = '&' ∨ c.toNat < 32 then
    ['\\', 'u', '0', '0', hexChar (c.toNat / 16), hexChar (c.toNat % 16)]
  else if c.toNat = 8232 ∨ c.toNat = 8233 then
    ['\\', 'u', '2', '0', '2', hexChar (c.toNat % 16)]
  else [c]

def escapeChars (s : List Char) : List Char := (s.map escapeChar).flatten

def renderString (s : String) : List Char := '"' :: (escapeChars s.data ++ ['"'])

/- ### JSON values of a log entry -/

/-- The values that ever enter the logger's entry map: the reserved
fields are strings or Go ints, and every extra field value is a string
(extras are typed map of string to string in the source). -/
inductive GoVal where
  | str (s : String)
  | int (i : Int)
deriving DecidableEq

def renderVal : GoVal → List Char
  | .str s => renderString s
  | .int i => renderInt i

def renderPair (p : String × GoVal) : List Char :=
  renderString p.1 ++ ':' :: renderVal p.2

def renderMembers : List (String × GoVal) → List Char
  | [] => []
  | [p] => renderPair p
  | p :: q :: rest => renderPair p ++ ',' :: renderMembers (q :: rest)

def renderObj (m : List (String × GoVal)) : List Char :=
  lbrace :: (renderMembers m ++ [rbrace])

/- ### Key sorting (Go json.Marshal sorts map keys) -/

def insertSorted (p : String × GoVal) : List (String × GoVal) → List (String × GoVal)
  | [] => [p]
  | q :: rest => if p.1 ≤ q.1 then p :: q :: rest else q :: insertSorted p rest

def sortKeys : List (String × GoVal) → List (String × GoVal)
  | [] => []
  | p :: rest => insertSorted p (sortKeys rest)

/-- Model of Go's json.Marshal applied to the logger's entry map.  The
entry map holds only strings and ints (see GoVal), and json.Marshal
never fails on those value kinds, so the model is total and returns ok;
keys are emitted in sorted order as Go does for maps. -/
def jsonMarshal (m : List (String × GoVal)) : Except String String :=
  .ok (String.mk (renderObj (sortKeys m)))

/- ### Association-list primitives (Go map semantics) -/

def alookup (k : String) : List (String × GoVal) → Option GoVal
  | [] => none
  | p :: rest => if p.1 = k then some p.2 else alookup k rest

def keysOf (m : List (String × GoVal)) : List String := m.map Prod.fst

/-- Go map assignment: replace the binding in place if the key is
present, otherwise append a new binding. -/
def upsert (m : List (String × GoVal)) (k : String) (v : GoVal) : List (String × GoVal) :=
  if k ∈ m.map Prod.fst then
    m.map fun p => if p.1 = k then (k, v) else p
  else m ++ [(k, v)]

/-- Value of a key in one extras mapping: Go maps hold at most one
binding per key; in the list encoding the last binding wins, matching
the fold of assignments in Log. -/
def mapVal (ex : List (String × String)) (k : String) : Option String :=
  ex.foldl (fun acc p => if p.1 = k then some p.2 else acc) none

/-- Value a key receives from a whole sequence of extras mappings:
the value in the last mapping that contains the key. -/
def lastVal (extras : List (List (String × String))) (k : String) : Option String :=
  extras.foldl (fun acc ex => match mapVal ex k with
    | some v => some v
    | none => acc) none

/- ### The logger state (struct Logger) -/

/-- Abstract identity of an io.Writer / os.File: the console stream,
a file, or a bufio buffer. -/
inductive Writer where
  | stdout
  | file (id : Nat)
  | buffer (id : Nat)
deriving DecidableEq

structure Logger where
  Name : String
  Hostname : String
  Pid : Int
  LogLevel : Int
  file : Writer
  writer : Writer
  isBuffered : Bool
deriving DecidableEq

def TraceLevel : Int := 10
def DebugLevel : Int := 20
def InfoLevel : Int := 30
def WarnLevel : Int := 40
def ErrorLevel : Int := 50
def FatalLevel : Int := 60
def BunyanSyntaxVersion : Int := 0

/-- The environment: outcomes of sink operations (none is success, some
e is failure with message e) and the process introspection results. -/
structure Env where
  write : Writer → String → Option String
  flush : Writer → Option String
  closeFile : Writer → Option String
  hostname : String
  pid : Int
  nowRaw : String

/- ### Construction -/

/-- strings.TrimSpace: drop leading and trailing whitespace. -/
def trimSpace (s : String) : String :=
  String.mk (((s.data.dropWhile Char.isWhitespace).reverse.dropWhile Char.isWhitespace).reverse)

/-- newLogger: Go's new(Logger) zero value leaves LogLevel at 0 and
isBuffered at false; the name is whitespace-trimmed. -/
def newLogger (env : Env) (name : String) (writer fileW : Writer) : Logger :=
  { Name := trimSpace name, Hostname := env.hostname, Pid := env.pid, LogLevel := 0,
    file := fileW, writer := writer, isBuffered := false }

/-- parseArgs: no argument means os.Stdout, otherwise the opened file
(modelled as an abstract file identity; OS-level open failures are
outside the model). -/
def parseArgs (args : Option Nat) : Writer :=
  match args with
  | none => Writer.stdout
  | some id => Writer.file id

def NewLogger (env : Env) (name : String) (args : Option Nat) : Logger :=
  newLogger env name (parseArgs args) (parseArgs args)

def NewBufferedLogger (env : Env) (name : String) (bufId : Nat) (args : Option Nat) : Logger :=
  let lg := newLogger env name (Writer.buffer bufId) (parseArgs args)
  { lg with isBuffered := true }

/- ### Severity configuration -/

def SetLogLevel (lg : Logger) (level : String) : Logger :=
  if level = "fatal" then { lg with LogLevel := FatalLevel }
  else if level = "error" then { lg with LogLevel := ErrorLevel }
  else if level = "warn" then { lg with LogLevel := WarnLevel }
  else if level = "info" then { lg with LogLevel := InfoLevel }
  else if level = "debug" then { lg with LogLevel := DebugLevel }
  else { lg with LogLevel := TraceLevel }

/- ### Shutdown -/

/-- Outcome of Close: either the flush error and the close error,
returned independently, or a panic when the type assertion
writer.(bufio pointer) fails because a buffered logger's writer is no
longer the bufio buffer (it was replaced by the console stream after a
sink write failure). -/
inductive CloseOutcome where
  | done (flushErr closeErr : Option String)
  | panic
deriving DecidableEq

/-- Close: when buffered, assert that the writer is the bufio buffer
and flush it (the assertion panics otherwise, before the file is
touched); close the file when it is not the console; the two error
results are returned independently. -/
def Close (env : Env) (lg : Logger) : CloseOutcome :=
  if lg.isBuffered then
    match lg.writer with
    | Writer.buffer id =>
      CloseOutcome.done (env.flush (Writer.buffer id))
        (if lg.file ≠ Writer.stdout then env.closeFile lg.file else none)
    | _ => CloseOutcome.panic
  else
    CloseOutcome.done none
      (if lg.file ≠ Writer.stdout then env.closeFile lg.file else none)

/- ### Record emission -/

/-- time in bunyan's format: take the first 23 bytes of the textual
time, replace the first space by T, append Z. -/
def replaceFirstSpace : List Char → List Char
  | [] => []
  | c :: rest => if c = ' ' then 'T' :: rest else c :: replaceFirstSpace rest

def bunyanTime (raw : String) : String :=
  String.mk (replaceFirstSpace (raw.data.take 23)) ++ "Z"

/-- The logEntry map of Log: the seven reserved fields, then every
extras mapping applied in call order by Go map assignment. -/
def buildEntry (env : Env) (lg : Logger) (msg : String) (level : Int)
    (extras : List (List (String × String))) : List (String × GoVal) :=
  let entry0 : List (String × GoVal) :=
    [("hostname", .str lg.Hostname), ("level", .int level), ("msg", .str msg),
     ("name", .str lg.Name), ("pid", .int lg.Pid),
     ("time", .str (bunyanTime env.nowRaw)), ("v", .int BunyanSyntaxVersion)]
  extras.foldl (fun m ex => ex.foldl (fun m p => upsert m p.1 (.str p.2)) m) entry0

structure LogResult where
  logger : Logger
  events : List (Writer × String)
  err : Option String
deriving DecidableEq

/-- Outcome of one Log call.  done is a normal return.  deadlock is a
call that never returns: Log runs with logger.lock held, and the
write-failure fallback calls the logger's own Error operation, whose
nested Log blocks forever re-acquiring the held non-reentrant mutex.
The hung call still carries the logger state it mutated (writer
already replaced by the console stream) and the writes it completed
before hanging. -/
inductive LogOutcome where
  | done (r : LogResult)
  | deadlock (lg : Logger) (events : List (Writer × String))
deriving DecidableEq

def LogOutcome.events : LogOutcome → List (Writer × String)
  | .done r => r.events
  | .deadlock _ evs => evs

/-- Log.  events records the successful writes in order.  On a write
failure the writer field is replaced by the console stream and the
code calls logger.Error while still holding logger.lock: if the error
level passes the threshold, the nested Log re-locks the held mutex and
the call deadlocks (no record is emitted, nothing is returned); only
when the Error call is suppressed by the threshold does Log return the
original write error. -/
def Log (env : Env) (lg : Logger) (msg : String) (level : Int)
    (extras : List (List (String × String))) : LogOutcome :=
  let entry := buildEntry env lg msg level extras
  match jsonMarshal entry with
  | .error e =>
    let plain := "Error marshalling log entry JSON: " ++ e
    let evs := if env.write lg.writer plain = none then [(lg.writer, plain)] else []
    .done ⟨lg, evs, some e⟩
  | .ok logJson =>
    let line := logJson ++ "\n"
    match env.write lg.writer line with
    | none => .done ⟨lg, [(lg.writer, line)], none⟩
    | some werr =>
      let lg2 := { lg with writer := Writer.stdout }
      if ErrorLevel ≥ lg2.LogLevel then
        .deadlock lg2 []
      else
        .done ⟨lg2, [], some werr⟩

/- ### The six leveled operations -/

def Trace (env : Env) (lg : Logger) (msg : String)
    (extras : List (List (String × String))) : LogOutcome :=
  if TraceLevel ≥ lg.LogLevel then Log env lg msg TraceLevel extras else .done ⟨lg, [], none⟩

def Debug (env : Env) (lg : Logger) (msg : String)
    (extras : List (List (String × String))) : LogOutcome :=
  if DebugLevel ≥ lg.LogLevel then Log env lg msg DebugLevel extras else .done ⟨lg, [], none⟩

def Info (env : Env) (lg : Logger) (msg : String)
    (extras : List (List (String × String))) : LogOutcome :=
  if InfoLevel ≥ lg.LogLevel then Log env lg msg InfoLevel extras else .done ⟨lg, [], none⟩

def Warning (env : Env) (lg : Logger) (msg : String)
    (extras : List (List (String × String))) : LogOutcome :=
  if WarnLevel ≥ lg.LogLevel then Log env lg msg WarnLevel extras else .done ⟨lg, [], none⟩

def Error (env : Env) (lg : Logger) (msg : String)
    (extras : List (List (String × String))) : LogOutcome :=
  if ErrorLevel ≥ lg.LogLevel then Log env lg msg ErrorLevel extras else .done ⟨lg, [], none⟩

def Fatal (env : Env) (lg : Logger) (msg : String)
    (extras : List (List (String × String))) : LogOutcome :=
  if FatalLevel ≥ lg.LogLevel then Log env lg msg FatalLevel extras else .done ⟨lg, [], none⟩

/-- The single JSON line a successful non-degraded Log call writes. -/
def logLine (env : Env) (lg : Logger) (msg : String) (level : Int)
    (extras : List (List (String × String))) : String :=
  String.mk (renderObj (sortKeys (buildEntry env lg msg level extras))) ++ "\n"

/- ### JSON line parser (verification artifact for the round-trip claims) -/

def hexVal (c : Char) : Option Nat :=
  if '0' ≤ c ∧ c ≤ '9' then some (c.toNat - 48)
  else if 'a' ≤ c ∧ c ≤ 'f' then some (c.toNat - 87)
  else none

def hex4 (a b c d : Char) : Option Nat := do
  let x ← hexVal a
  let y ← hexVal b
  let z ← hexVal c
  let w ← hexVal d
  pure (((x * 16 + y) * 16 + z) * 16 + w)

def consFst (c : Char) (r : Option (List Char × List Char)) : Option (List Char × List Char) :=
  r.map fun p => (c :: p.1, p.2)

/-- Parse a JSON string body (after the opening quote) up to and past the
closing quote, undoing the escapes escapeChar produces. -/
def parseStrAux : List Char → Option (List Char × List Char)
  | [] => none
  | c :: rest =>
    if c = '"' then some ([], rest)
    else if c = '\\' then
      match rest with
      | [] => none
      | e :: rest2 =>
        if e = '"' then consFst '"' (parseStrAux rest2)
        else if e = '\\' then consFst '\\' (parseStrAux rest2)
        else if e = 'n' then consFst '\n' (parseStrAux rest2)
        else if e = 'r' then consFst '\r' (parseStrAux rest2)
        else if e = 't' then consFst '\t' (parseStrAux rest2)
        else if e = 'u' then
          match rest2 with
          | h1 :: h2 :: h3 :: h4 :: rest3 =>
            match hex4 h1 h2 h3 h4 with
            | some n => consFst (Char.ofNat n) (parseStrAux rest3)
            | none => none
          | _ => none
        else none
    else consFst c (parseStrAux rest)

/-- True when the input does not continue with a decimal digit. -/
def headNotDigit : List Char → Bool
  | [] => true
  | c :: _ => !c.isDigit

/-- Greedily parse a run of decimal digits into the accumulator. -/
def parseDigitsAux : List Char → Nat → Nat × List Char
  | [], acc => (acc, [])
  | c :: rest, acc =>
    if c.isDigit then parseDigitsAux rest (acc * 10 + (c.toNat - 48)) else (acc, c :: rest)

def parseVal : List Char → Option (GoVal × List Char)
  | [] => none
  | c :: rest =>
    if c = '"' then (parseStrAux rest).map fun p => (.str (String.mk p.1), p.2)
    else if c = '-' then
      match rest with
      | d :: _ =>
        if d.isDigit then
          let r := parseDigitsAux rest 0
          some (.int (-(r.1 : Int)), r.2)
        else none
      | [] => none
    else if c.isDigit then
      let r := parseDigitsAux (c :: rest) 0
      some (.int (r.1 : Int), r.2)
    else none

/-- Parse a nonempty comma-separated member list up to and past the
closing brace; the fuel bounds the number of members. -/
def parseMembers : Nat → List Char → Option (List (String × GoVal) × List Char)
  | 0, _ => none
  | fuel + 1, l =>
    match l with
    | [] => none
    | c :: rest =>
      if c = '"' then
        match parseStrAux rest with
        | some (kcs, rest2) =>
          match rest2 with
          | ':' :: rest3 =>
            match parseVal rest3 with
            | some (v, rest4) =>
              match rest4 with
              | ',' :: rest5 =>
                match parseMembers fuel rest5 with
                | some (ms, rest6) => some ((String.mk kcs, v) :: ms, rest6)
                | none => none
              | c2 :: rest5 => if c2 = rbrace then some ([(String.mk kcs, v)], rest5) else none
              | [] => none
            | none => none
          | _ => none
        | none => none
      else none

def parseObj : List Char → Option (List (String × GoVal) × List Char)
  | [] => none
  | c :: rest =>
    if c = lbrace then
      match rest with
      | [] => none
      | c2 :: rest2 =>
        if c2 = rbrace then some ([], rest2)
        else parseMembers rest.length rest
    else none

/-- Parse one full output line of the logger: a JSON object followed by
exactly one newline and nothing else. -/
def jsonParseLine (s : String) : Option (List (String × GoVal)) :=
  match parseObj s.data with
  | some (m, [c]) => if c = '\n' then some m else none
  | _ => none

/- ### Concrete instances used by the theorem witnesses -/

/-- An environment in which every sink operation succeeds. -/
def envW : Env :=
  { write := fun _ _ => none, flush := fun _ => none, closeFile := fun _ => none,
    hostname := "host1", pid := 1234, nowRaw := "2024-01-01 00:00:00.000000000 +0000 UTC" }

/-- An environment in which writes to files and to buffers fail and
everything else succeeds. -/
def envFail : Env :=
  { write := fun w _ => match w with
      | .file _ => some "disk full"
      | .buffer _ => some "disk full"
      | _ => none,
    flush := fun _ => none, closeFile := fun _ => none,
    hostname := "host1", pid := 1234, nowRaw := "2024-01-01 00:00:00.000000000 +0000 UTC" }

/-- A console logger created by NewLogger with no path argument. -/
def lgW : Logger := NewLogger envW "svc" none

/-- The console logger with its threshold set to info. -/
def lgInfo : Logger := SetLogLevel lgW "info"

/-- A file logger in the failing environment. -/
def lgFile : Logger := NewLogger envFail "svc" (some 0)

/-- The file logger with its threshold set to fatal. -/
def lgFatal : Logger := SetLogLevel lgFile "fatal"

/-- A buffered file logger in the failing environment, threshold
fatal: its failed write returns (the fallback Error call is
suppressed, so no deadlock) and leaves it degraded. -/
def lgBufFatal : Logger := SetLogLevel (NewBufferedLogger envFail "svc" 0 (some 0)) "fatal"

/-- A healthy buffered file logger in the all-success environment. -/
def lgBufW : Logger := NewBufferedLogger envW "svc" 0 (some 1)

/-- The seven reserved field names of a record. -/
def reservedKeys : List String := ["hostname", "level", "msg", "name", "pid", "time", "v"]

end GoCommon

namespace GoCommonMetrics

/-- The default histogram buckets of the metrics package.  The Go source
writes float64 decimal literals; they are modelled as the exact rational
numbers those literals denote (no claim depends on bucket numerics). -/
def histogramBuckets : List Rat :=
  [1/1000, 1/400, 1/200, 3/400, 1/100, 1/40, 1/20, 1/10, 1/4, 1/2,
   1, 5/2, 5, 10, 20, 30, 45, 60, 90]

/-- The option fields handed to the Prometheus client on registration. -/
structure PrometheusOpts where
  Name : String
  NamespaceField : String
  Subsystem : String
  Help : String
  ConstLabels : List (String × String)
deriving DecidableEq

structure HistogramHandle where
  opts : PrometheusOpts
  Buckets : List Rat
deriving DecidableEq

structure VectorHandle where
  opts : PrometheusOpts
  labelNames : List String
deriving DecidableEq

structure HistogramVectorHandle where
  handle : HistogramHandle
  labelNames : List String
deriving DecidableEq

def CreateHistogram (name ns subsystem help : String) (labels : List (String × String))
    (buckets : List (List Rat)) : Except String HistogramHandle :=
  let useBuckets := match buckets with
    | [] => histogramBuckets
    | b :: _ => b
  if name = "" ∨ help = "" then
    .error "Prometheus histogram requires both name and help fields to initialize - missing one or both of those fields"
  else
    .ok ⟨⟨name, ns, subsystem, help, labels⟩, useBuckets⟩

def CreateHistogramVector (name ns subsystem help : String) (labels : List (String × String))
    (labelNames : List String) (buckets : List (List Rat)) : Except String HistogramVectorHandle :=
  let useBuckets := match buckets with
    | [] => histogramBuckets
    | b :: _ => b
  if name = "" ∨ help = "" then
    .error "Prometheus histogram requires both name and help fields to initialize - missing one or both of those fields"
  else
    .ok ⟨⟨⟨name, ns, subsystem, help, labels⟩, useBuckets⟩, labelNames⟩

def CreateCounterVector (name ns subsystem help : String) (labels : List (String × String))
    (labelNames : List String) : Except String VectorHandle :=
  if name = "" ∨ help = "" then
    .error "Prometheus counter vector requires both name and help fields to initialize - missing one or both of those fields"
  else
    .ok ⟨⟨name, ns, subsystem, help, labels⟩, labelNames⟩

def CreateCounter (name ns subsystem help : String) (labels : List (String × String)) :
    Except String PrometheusOpts :=
  if name = "" ∨ help = "" then
    .error "Prometheus counter requires both name and help fields to initialize - missing one or both of those fields"
  else
    .ok ⟨name, ns, subsystem, help, labels⟩

def CreateGauge (name ns subsystem help : String) (labels : List (String × String)) :
    Except String PrometheusOpts :=
  if name = "" ∨ help = "" then
    .error "Prometheus gauge requires both name and help fields to initialize - missing one or both of those fields"
  else
    .ok ⟨name, ns, subsystem, help, labels⟩

def CreateGaugeVector (name ns subsystem help : String) (labels : List (String × String))
    (labelNames : List String) : Except String VectorHandle :=
  if name = "" ∨ help = "" then
    .error "Prometheus gauge vector requires both name and help fields to initialize - missing one or both of those fields"
  else
    .ok ⟨⟨name, ns, subsystem, help, labels⟩, labelNames⟩

end GoCommonMetrics

/-! ## Helper lemmas about Log -/

namespace GoCommon

theorem log_success (env : Env) (lg : Logger) (msg : String) (level : Int)
    (extras : List (List (String × String)))
    (h : env.write lg.writer (logLine env lg msg level extras) = none) :
    Log env lg msg level extras =
      .done ⟨lg, [(lg.writer, logLine env lg msg level extras)], none⟩ := by
  rw [Log]
  simp only [jsonMarshal, logLine] at h ⊢
  rw [h]

theorem log_writeFail_deadlock (env : Env) (lg : Logger) (msg : String) (level : Int)
    (extras : List (List (String × String))) (e : String)
    (hfail : env.write lg.writer (logLine env lg msg level extras) = some e)
    (hlvl : ErrorLevel ≥ lg.LogLevel) :
    Log env lg msg level extras = .deadlock { lg with writer := Writer.stdout } [] := by
  rw [Log]
  simp only [jsonMarshal, logLine] at hfail ⊢
  rw [hfail]
  simp [hlvl]

theorem log_writeFail_suppressed (env : Env) (lg : Logger) (msg : String) (level : Int)
    (extras : List (List (String × String))) (e : String)
    (hfail : env.write lg.writer (logLine env lg msg level extras) = some e)
    (hlvl : ErrorLevel < lg.LogLevel) :
    Log env lg msg level extras =
      .done ⟨{ lg with writer := Writer.stdout }, [], some e⟩ := by
  rw [Log]
  simp only [jsonMarshal, logLine] at hfail ⊢
  rw [hfail]
  simp
  omega

theorem leveled_guard (s : Int) (env : Env) (lg : Logger) (msg : String)
    (extras : List (List (String × String))) (hw : ∀ w str, env.write w str = none) :
    ((if s ≥ lg.LogLevel then Log env lg msg s extras else .done ⟨lg, [], none⟩).events ≠ [] ↔
      s ≥ lg.LogLevel) ∧
    (s < lg.LogLevel →
      (if s ≥ lg.LogLevel then Log env lg msg s extras else .done ⟨lg, [], none⟩) =
        .done ⟨lg, [], none⟩) := by
  constructor
  · by_cases h : s ≥ lg.LogLevel
    · simp [h, log_success env lg msg s extras (hw _ _), LogOutcome.events]
    · simp [h, LogOutcome.events]
  · intro h
    rw [if_neg (by omega)]

end GoCommon

/-! ## Claim theorems: severity guards and configuration -/

namespace GoCommon

/-- C1: for every severity s among trace(10), debug(20), info(30),
warn(40), error(50), fatal(60) and every configured threshold, the
corresponding leveled operation writes a record if and only if s is at
least the threshold, and when s is below the threshold the call is a
silent no-op returning no error (environment: every sink write
succeeds, i.e. the non-degraded case). -/
theorem leveled_ops_write_iff_threshold (env : Env) (lg : Logger) (msg : String)
    (extras : List (List (String × String))) (hw : ∀ w s, env.write w s = none) :
    ((Trace env lg msg extras).events ≠ [] ↔ TraceLevel ≥ lg.LogLevel) ∧
    (TraceLevel < lg.LogLevel → Trace env lg msg extras = .done ⟨lg, [], none⟩) ∧
    ((Debug env lg msg extras).events ≠ [] ↔ DebugLevel ≥ lg.LogLevel) ∧
    (DebugLevel < lg.LogLevel → Debug env lg msg extras = .done ⟨lg, [], none⟩) ∧
    ((Info env lg msg extras).events ≠ [] ↔ InfoLevel ≥ lg.LogLevel) ∧
    (InfoLevel < lg.LogLevel → Info env lg msg extras = .done ⟨lg, [], none⟩) ∧
    ((Warning env lg msg extras).events ≠ [] ↔ WarnLevel ≥ lg.LogLevel) ∧
    (WarnLevel < lg.LogLevel → Warning env lg msg extras = .done ⟨lg, [], none⟩) ∧
    ((Error env lg msg extras).events ≠ [] ↔ ErrorLevel ≥ lg.LogLevel) ∧
    (ErrorLevel < lg.LogLevel → Error env lg msg extras = .done ⟨lg, [], none⟩) ∧
    ((Fatal env lg msg extras).events ≠ [] ↔ FatalLevel ≥ lg.LogLevel) ∧
    (FatalLevel < lg.LogLevel → Fatal env lg msg extras = .done ⟨lg, [], none⟩) :=
  ⟨(leveled_guard TraceLevel env lg msg extras hw).1,
   (leveled_guard TraceLevel env lg msg extras hw).2,
   (leveled_guard DebugLevel env lg msg extras hw).1,
   (leveled_guard DebugLevel env lg msg extras hw).2,
   (leveled_guard InfoLevel env lg msg extras hw).1,
   (leveled_guard InfoLevel env lg msg extras hw).2,
   (leveled_guard WarnLevel env lg msg extras hw).1,
   (leveled_guard WarnLevel env lg msg extras hw).2,
   (leveled_guard ErrorLevel env lg msg extras hw).1,
   (leveled_guard ErrorLevel env lg msg extras hw).2,
   (leveled_guard FatalLevel env lg msg extras hw).1,
   (leveled_guard FatalLevel env lg msg extras hw).2⟩

/-- Witness for C1 at a concrete environment and an info-threshold
logger. -/
theorem leveled_ops_write_iff_threshold_witness :
    (∀ w s, envW.write w s = none) ∧
    (((Trace envW lgInfo "m" []).events ≠ [] ↔ TraceLevel ≥ lgInfo.LogLevel) ∧
     (TraceLevel < lgInfo.LogLevel → Trace envW lgInfo "m" [] = .done ⟨lgInfo, [], none⟩) ∧
     ((Debug envW lgInfo "m" []).events ≠ [] ↔ DebugLevel ≥ lgInfo.LogLevel) ∧
     (DebugLevel < lgInfo.LogLevel → Debug envW lgInfo "m" [] = .done ⟨lgInfo, [], none⟩) ∧
     ((Info envW lgInfo "m" []).events ≠ [] ↔ InfoLevel ≥ lgInfo.LogLevel) ∧
     (InfoLevel < lgInfo.LogLevel → Info envW lgInfo "m" [] = .done ⟨lgInfo, [], none⟩) ∧
     ((Warning envW lgInfo "m" []).events ≠ [] ↔ WarnLevel ≥ lgInfo.LogLevel) ∧
     (WarnLevel < lgInfo.LogLevel → Warning envW lgInfo "m" [] = .done ⟨lgInfo, [], none⟩) ∧
     ((Error envW lgInfo "m" []).events ≠ [] ↔ ErrorLevel ≥ lgInfo.LogLevel) ∧
     (ErrorLevel < lgInfo.LogLevel → Error envW lgInfo "m" [] = .done ⟨lgInfo, [], none⟩) ∧
     ((Fatal envW lgInfo "m" []).events ≠ [] ↔ FatalLevel ≥ lgInfo.LogLevel) ∧
     (FatalLevel < lgInfo.LogLevel → Fatal envW lgInfo "m" [] = .done ⟨lgInfo, [], none⟩)) :=
  ⟨fun _ _ => rfl, leveled_ops_write_iff_threshold envW lgInfo "m" [] (fun _ _ => rfl)⟩

/-- C9: the shared Log primitive performs no severity-threshold check:
for every logger and every level value, even strictly below the
configured threshold, a direct Log call serializes the record and
writes it to the sink (environment: every sink write succeeds). -/
theorem log_unconditional_write (env : Env) (lg : Logger) (msg : String)
    (level : Int) (extras : List (List (String × String)))
    (hw : ∀ w s, env.write w s = none) :
    Log env lg msg level extras =
      .done ⟨lg, [(lg.writer, logLine env lg msg level extras)], none⟩ :=
  log_success env lg msg level extras (hw _ _)

/-- Witness for C9: level 10 is strictly below the info threshold 30,
yet the direct Log call writes. -/
theorem log_unconditional_write_witness :
    (∀ w s, envW.write w s = none) ∧ TraceLevel < lgInfo.LogLevel ∧
    Log envW lgInfo "m" TraceLevel [] =
      .done ⟨lgInfo, [(lgInfo.writer, logLine envW lgInfo "m" TraceLevel [])], none⟩ :=
  ⟨fun _ _ => rfl, by decide,
   log_unconditional_write envW lgInfo "m" TraceLevel [] (fun _ _ => rfl)⟩

/-- C10: serialization of a record never fails (the entry map holds
only strings and ints), so the plain-text marshal-error branch of Log
is unreachable, and Log returns a non-nil error only when the sink
write fails, with the same error value: whenever a Log call returns at
all with a non-nil error, the sink write failed with that error, and
when the sink write succeeds the call returns no error.  (When the
write fails and the threshold lets the fallback Error call through,
the call deadlocks and returns nothing; see the C2 analysis.) -/
theorem log_err_iff_sink_write_fails (env : Env) (lg : Logger) (msg : String)
    (level : Int) (extras : List (List (String × String))) :
    jsonMarshal (buildEntry env lg msg level extras) =
      .ok (String.mk (renderObj (sortKeys (buildEntry env lg msg level extras)))) ∧
    (∀ r e, Log env lg msg level extras = .done r → r.err = some e →
      env.write lg.writer (logLine env lg msg level extras) = some e) ∧
    (env.write lg.writer (logLine env lg msg level extras) = none →
      Log env lg msg level extras =
        .done ⟨lg, [(lg.writer, logLine env lg msg level extras)], none⟩) := by
  refine ⟨rfl, ?_, log_success env lg msg level extras⟩
  intro r e hdone herr
  rw [Log] at hdone
  simp only [jsonMarshal, logLine] at hdone ⊢
  cases hw : env.write lg.writer
      (String.mk (renderObj (sortKeys (buildEntry env lg msg level extras))) ++ "\n") with
  | none =>
    rw [hw] at hdone
    simp only [LogOutcome.done.injEq] at hdone
    rw [← hdone] at herr
    simp at herr
  | some w =>
    rw [hw] at hdone
    by_cases h : ErrorLevel ≥ lg.LogLevel
    · simp [h] at hdone
    · simp only [if_neg h, LogOutcome.done.injEq] at hdone
      rw [← hdone] at herr
      simpa using herr

/-- Witness for C10: the only-when direction at a fatal-threshold
logger whose write fails (the call returns there), and the no-error
direction at a healthy console logger. -/
theorem log_err_iff_sink_write_fails_witness :
    Log envFail lgFatal "hello" FatalLevel [] =
      .done ⟨{ lgFatal with writer := Writer.stdout }, [], some "disk full"⟩ ∧
    envFail.write lgFatal.writer (logLine envFail lgFatal "hello" FatalLevel []) =
      some "disk full" ∧
    envW.write lgW.writer (logLine envW lgW "m" InfoLevel []) = none ∧
    Log envW lgW "m" InfoLevel [] =
      .done ⟨lgW, [(lgW.writer, logLine envW lgW "m" InfoLevel [])], none⟩ :=
  ⟨by decide,
   (log_err_iff_sink_write_fails envFail lgFatal "hello" FatalLevel []).2.1
     ⟨{ lgFatal with writer := Writer.stdout }, [], some "disk full"⟩ "disk full"
     (by decide) rfl,
   rfl,
   (log_err_iff_sink_write_fails envW lgW "m" InfoLevel []).2.2 rfl⟩

/-- C5: SetLogLevel maps exactly the five lowercase names to their
levels and sends every other string, including trace and the empty
string, to the lowest level; it is a total function (never an
error). -/
theorem setLogLevel_mapping (lg : Logger) (s : String) :
    (SetLogLevel lg "fatal").LogLevel = 60 ∧
    (SetLogLevel lg "error").LogLevel = 50 ∧
    (SetLogLevel lg "warn").LogLevel = 40 ∧
    (SetLogLevel lg "info").LogLevel = 30 ∧
    (SetLogLevel lg "debug").LogLevel = 20 ∧
    (s ∉ (["fatal", "error", "warn", "info", "debug"] : List String) →
      (SetLogLevel lg s).LogLevel = TraceLevel) ∧
    (SetLogLevel lg "trace").LogLevel = 10 ∧
    (SetLogLevel lg "").LogLevel = 10 := by
  refine ⟨rfl, rfl, rfl, rfl, rfl, ?_, rfl, rfl⟩
  intro h
  simp only [List.mem_cons, List.not_mem_nil, or_false, not_or] at h
  obtain ⟨h1, h2, h3, h4, h5⟩ := h
  simp [SetLogLevel, h1, h2, h3, h4, h5]

/-- Witness for C5 at the unrecognized name trace. -/
theorem setLogLevel_mapping_witness :
    ("trace" ∉ (["fatal", "error", "warn", "info", "debug"] : List String)) ∧
    (SetLogLevel lgW "trace").LogLevel = TraceLevel :=
  ⟨by decide, ((setLogLevel_mapping lgW "trace").2.2.2.2.2.1 (by decide))⟩

/-- C7 counterexample: the claim as stated is false.  A buffered file
logger with threshold fatal whose sink write fails returns (the
fallback Error call is suppressed, so the call does not deadlock)
leaving isBuffered true while its writer has been permanently replaced
by the console stream; Close on that reachable state panics on the
writer bufio type assertion instead of returning the flush and close
errors as two values. -/
theorem close_panics_on_degraded_buffered_logger :
    Log envFail lgBufFatal "m" FatalLevel [] =
      .done ⟨{ lgBufFatal with writer := Writer.stdout }, [], some "disk full"⟩ ∧
    ({ lgBufFatal with writer := Writer.stdout } : Logger).isBuffered = true ∧
    Close envFail { lgBufFatal with writer := Writer.stdout } = CloseOutcome.panic := by
  decide

/-- C7 amended: provided a buffered logger's writer is still the bufio
buffer (the logger is not degraded by a write failure), Close flushes
the buffer exactly when the logger is buffered, closes the underlying
file exactly when it is not the console, and returns the flush error
and the close error as two independent values; every combination of
flush and close outcome is realizable, so neither is masked by the
other. -/
theorem close_flush_close_independent :
    (∀ env lg, (lg.isBuffered = true → ∃ id, lg.writer = Writer.buffer id) →
      Close env lg = CloseOutcome.done
        (if lg.isBuffered then env.flush lg.writer else none)
        (if lg.file ≠ Writer.stdout then env.closeFile lg.file else none)) ∧
    (∀ f c : Option String, ∃ env lg, Close env lg = CloseOutcome.done f c) := by
  constructor
  · intro env lg hbuf
    rw [Close]
    by_cases hb : lg.isBuffered
    · obtain ⟨id, hid⟩ := hbuf hb
      rw [if_pos hb, hid]
      simp [hb]
    · rw [if_neg hb]
      simp [hb]
  · intro f c
    exact ⟨{ write := fun _ _ => none, flush := fun _ => f, closeFile := fun _ => c,
             hostname := "", pid := 0, nowRaw := "" },
           { Name := "", Hostname := "", Pid := 0, LogLevel := 0,
             file := Writer.file 0, writer := Writer.buffer 0, isBuffered := true },
           by simp [Close]⟩

/-- Witness for the amended C7 at a healthy buffered file logger. -/
theorem close_flush_close_independent_witness :
    (lgBufW.isBuffered = true → ∃ id, lgBufW.writer = Writer.buffer id) ∧
    Close envW lgBufW = CloseOutcome.done
      (if lgBufW.isBuffered then envW.flush lgBufW.writer else none)
      (if lgBufW.file ≠ Writer.stdout then envW.closeFile lgBufW.file else none) :=
  ⟨fun _ => ⟨0, rfl⟩,
   close_flush_close_independent.1 envW lgBufW (fun _ => ⟨0, rfl⟩)⟩

end GoCommon

/-! ## Claim theorem: write-failure fallback (C2, a code bug) -/

namespace GoCommon

/-- C2 is a bug in the code.  Log runs holding logger.lock; on a sink
write failure it replaces the writer with the console stream and then
calls the logger's own Error operation while the lock is still held.
Error calls Log, whose Lock on the same non-reentrant mutex blocks
forever: whenever ErrorLevel is at or above the threshold (including
the default threshold 0) the call self-deadlocks, so no error-level
record is emitted and the original write error is never returned,
contrary to the claim.  Only a threshold above ErrorLevel (fatal)
suppresses the fallback before locking; then the error is returned but
still no record is emitted.  This theorem evaluates the model at both
failing inputs: the default-threshold file logger deadlocks, and the
fatal-threshold file logger returns the error with no record. -/
theorem log_writeFail_deadlocks :
    ErrorLevel ≥ lgFile.LogLevel ∧
    Log envFail lgFile "hello" InfoLevel [] =
      .deadlock { lgFile with writer := Writer.stdout } [] ∧
    Log envFail lgFatal "hello" FatalLevel [] =
      .done ⟨{ lgFatal with writer := Writer.stdout }, [], some "disk full"⟩ := by
  decide

end GoCommon

/-! ## Claim theorems: metrics registration validation (C8) -/

namespace GoCommonMetrics

/-- C8: each metrics-registration operation fails with a validation
error and returns no handle exactly when name or help is empty, and
returns the configured handle with no error when both are
non-empty. -/
theorem create_validation (name ns sub help : String) (labels : List (String × String))
    (labelNames : List String) (buckets : List (List Rat)) :
    ((name = "" ∨ help = "") → CreateCounter name ns sub help labels =
      .error "Prometheus counter requires both name and help fields to initialize - missing one or both of those fields") ∧
    (name ≠ "" → help ≠ "" → CreateCounter name ns sub help labels =
      .ok ⟨name, ns, sub, help, labels⟩) ∧
    ((name = "" ∨ help = "") → CreateGauge name ns sub help labels =
      .error "Prometheus gauge requires both name and help fields to initialize - missing one or both of those fields") ∧
    (name ≠ "" → help ≠ "" → CreateGauge name ns sub help labels =
      .ok ⟨name, ns, sub, help, labels⟩) ∧
    ((name = "" ∨ help = "") → CreateHistogram name ns sub help labels buckets =
      .error "Prometheus histogram requires both name and help fields to initialize - missing one or both of those fields") ∧
    (name ≠ "" → help ≠ "" → CreateHistogram name ns sub help labels buckets =
      .ok ⟨⟨name, ns, sub, help, labels⟩,
           match buckets with
           | [] => histogramBuckets
           | b :: _ => b⟩) ∧
    ((name = "" ∨ help = "") → CreateCounterVector name ns sub help labels labelNames =
      .error "Prometheus counter vector requires both name and help fields to initialize - missing one or both of those fields") ∧
    (name ≠ "" → help ≠ "" → CreateCounterVector name ns sub help labels labelNames =
      .ok ⟨⟨name, ns, sub, help, labels⟩, labelNames⟩) ∧
    ((name = "" ∨ help = "") → CreateGaugeVector name ns sub help labels labelNames =
      .error "Prometheus gauge vector requires both name and help fields to initialize - missing one or both of those fields") ∧
    (name ≠ "" → help ≠ "" → CreateGaugeVector name ns sub help labels labelNames =
      .ok ⟨⟨name, ns, sub, help, labels⟩, labelNames⟩) ∧
    ((name = "" ∨ help = "") → CreateHistogramVector name ns sub help labels labelNames buckets =
      .error "Prometheus histogram requires both name and help fields to initialize - missing one or both of those fields") ∧
    (name ≠ "" → help ≠ "" → CreateHistogramVector name ns sub help labels labelNames buckets =
      .ok ⟨⟨⟨name, ns, sub, help, labels⟩,
            match buckets with
            | [] => histogramBuckets
            | b :: _ => b⟩, labelNames⟩) := by
  refine ⟨fun h => ?_, fun hn hh => ?_, fun h => ?_, fun hn hh => ?_, fun h => ?_,
         fun hn hh => ?_, fun h => ?_, fun hn hh => ?_, fun h => ?_, fun hn hh => ?_,
         fun h => ?_, fun hn hh => ?_⟩ <;>
    simp_all [CreateCounter, CreateGauge, CreateHistogram, CreateCounterVector,
      CreateGaugeVector, CreateHistogramVector]

/-- Witness for C8: an empty name fails, non-empty name and help
succeed. -/
theorem create_validation_witness :
    (("" : String) = "" ∨ ("h" : String) = "") ∧
    (CreateCounter "" "n" "s" "h" [] =
      .error "Prometheus counter requires both name and help fields to initialize - missing one or both of those fields") ∧
    ("c" : String) ≠ "" ∧ ("h" : String) ≠ "" ∧
    (CreateCounter "c" "n" "s" "h" [] = .ok ⟨"c", "n", "s", "h", []⟩) ∧
    (CreateHistogram "c" "n" "s" "h" [] [] = .ok ⟨⟨"c", "n", "s", "h", []⟩, histogramBuckets⟩) :=
  ⟨Or.inl rfl,
   (create_validation "" "n" "s" "h" [] [] []).1 (Or.inl rfl),
   by decide, by decide,
   (create_validation "c" "n" "s" "h" [] [] []).2.1 (by decide) (by decide),
   (create_validation "c" "n" "s" "h" [] [] []).2.2.2.2.2.1 (by decide) (by decide)⟩

end GoCommonMetrics

/-! ## Round-trip machinery: string escaping -/

namespace GoCommon

theorem hexVal_hexChar (d : Nat) (h : d < 16) : hexVal (hexChar d) = some d := by
  interval_cases d <;> decide

theorem hex4_00 (hi lo : Nat) (hhi : hi < 16) (hlo : lo < 16) :
    hex4 '0' '0' (hexChar hi) (hexChar lo) = some (hi * 16 + lo) := by
  rw [hex4, hexVal_hexChar hi hhi, hexVal_hexChar lo hlo,
    show hexVal '0' = some 0 from by decide]
  simp

theorem hex4_202 (lo : Nat) (hlo : lo < 16) :
    hex4 '2' '0' '2' (hexChar lo) = some (8224 + lo) := by
  rw [hex4, hexVal_hexChar lo hlo, show hexVal '2' = some 2 from by decide,
    show hexVal '0' = some 0 from by decide]
  simp

theorem parseStrAux_u00 (hi lo : Nat) (hhi : hi < 16) (hlo : lo < 16) (l : List Char) :
    parseStrAux ('\\' :: 'u' :: '0' :: '0' :: hexChar hi :: hexChar lo :: l) =
      consFst (Char.ofNat (hi * 16 + lo)) (parseStrAux l) := by
  rw [parseStrAux.eq_def]
  simp [hex4_00 hi lo hhi hlo]

theorem parseStrAux_u202 (lo : Nat) (hlo : lo < 16) (l : List Char) :
    parseStrAux ('\\' :: 'u' :: '2' :: '0' :: '2' :: hexChar lo :: l) =
      consFst (Char.ofNat (8224 + lo)) (parseStrAux l) := by
  rw [parseStrAux.eq_def]
  simp [hex4_202 lo hlo]

theorem parseStrAux_escapeChar (c : Char) (l : List Char) :
    parseStrAux (escapeChar c ++ l) = consFst c (parseStrAux l) := by
  rw [escapeChar]
  split_ifs with h1 h2 h3 h4 h5 h6 h7
  · subst h1; rw [parseStrAux.eq_def]; simp
  · subst h2; rw [parseStrAux.eq_def]; simp
  · subst h3; rw [parseStrAux.eq_def]; simp
  · subst h4; rw [parseStrAux.eq_def]; simp
  · subst h5; rw [parseStrAux.eq_def]; simp
  · have hhi : c.toNat / 16 < 16 := by
      rcases h6 with hc | hc | hc | hc
      · subst hc; decide
      · subst hc; decide
      · subst hc; decide
      · omega
    have hlo : c.toNat % 16 < 16 := Nat.mod_lt _ (by norm_num)
    show parseStrAux ('\\' :: 'u' :: '0' :: '0' ::
      hexChar (c.toNat / 16) :: hexChar (c.toNat % 16) :: l) = _
    rw [parseStrAux_u00 _ _ hhi hlo, Nat.div_add_mod', Char.ofNat_toNat]
  · have hlo : c.toNat % 16 < 16 := Nat.mod_lt _ (by norm_num)
    show parseStrAux ('\\' :: 'u' :: '2' :: '0' :: '2' :: hexChar (c.toNat % 16) :: l) = _
    rw [parseStrAux_u202 _ hlo]
    rcases h7 with hc | hc
    · rw [hc, show 8224 + 8232 % 16 = 8232 from by norm_num, ← hc, Char.ofNat_toNat]
    · rw [hc, show 8224 + 8233 % 16 = 8233 from by norm_num, ← hc, Char.ofNat_toNat]
  · show parseStrAux (c :: l) = _
    rw [parseStrAux.eq_def]
    simp [h1, h2]

theorem parseStrAux_escapeChars (s : List Char) (l : List Char) :
    parseStrAux (escapeChars s ++ '"' :: l) = some (s, l) := by
  induction s with
  | nil =>
    show parseStrAux ('"' :: l) = _
    rw [parseStrAux.eq_def]
    simp
  | cons c cs ih =>
    have he : escapeChars (c :: cs) = escapeChar c ++ escapeChars cs := by
      simp [escapeChars]
    rw [he, List.append_assoc, parseStrAux_escapeChar, ih]
    rfl

end GoCommon

/-! ## Round-trip machinery: decimal numbers -/

namespace GoCommon

theorem digitChar_isDigit (d : Nat) (h : d < 10) : (digitChar d).isDigit := by
  interval_cases d <;> decide

theorem digitChar_val (d : Nat) (h : d < 10) : (digitChar d).toNat - 48 = d := by
  interval_cases d <;> decide

theorem natCharsAux_digits (fuel : Nat) : ∀ n, ∀ c ∈ natCharsAux fuel n, c.isDigit := by
  induction fuel with
  | zero => intro n c hc; simp [natCharsAux] at hc
  | succ f ih =>
    intro n c hc
    rw [natCharsAux] at hc
    by_cases h0 : n = 0
    · simp [h0] at hc
    · rw [if_neg h0] at hc
      rcases List.mem_append.mp hc with hc | hc
      · exact ih _ c hc
      · rw [List.mem_singleton] at hc
        subst hc
        exact digitChar_isDigit _ (Nat.mod_lt _ (by norm_num))

theorem natChars_digits (n : Nat) : ∀ c ∈ natChars n, c.isDigit := by
  intro c hc
  rw [natChars] at hc
  by_cases h0 : n = 0
  · rw [if_pos h0, List.mem_singleton] at hc
    subst hc; decide
  · rw [if_neg h0] at hc
    exact natCharsAux_digits n n c hc

theorem natChars_ne_nil (n : Nat) : natChars n ≠ [] := by
  rw [natChars]
  by_cases h0 : n = 0
  · simp [h0]
  · rw [if_neg h0]
    obtain ⟨f, hf⟩ := Nat.exists_eq_succ_of_ne_zero h0
    rw [hf, natCharsAux, if_neg (hf ▸ h0)]
    simp

theorem natCharsAux_foldl (fuel : Nat) : ∀ n acc, n ≤ fuel →
    (natCharsAux fuel n).foldl (fun a c => a * 10 + (c.toNat - 48)) acc =
      acc * 10 ^ (natCharsAux fuel n).length + n := by
  induction fuel with
  | zero =>
    intro n acc h
    interval_cases n
    simp [natCharsAux]
  | succ f ih =>
    intro n acc h
    by_cases h0 : n = 0
    · simp [h0, natCharsAux]
    · rw [natCharsAux, if_neg h0, List.foldl_append]
      have hlt : n / 10 < n := Nat.div_lt_self (Nat.pos_of_ne_zero h0) (by norm_num)
      rw [ih (n / 10) acc (by omega)]
      simp only [List.foldl_cons, List.foldl_nil, List.length_append, List.length_singleton]
      rw [digitChar_val _ (Nat.mod_lt _ (by norm_num))]
      rw [pow_succ]
      have := Nat.div_add_mod n 10
      generalize (10 : Nat) ^ (natCharsAux f (n / 10)).length = P
      ring_nf
      omega

theorem natChars_foldl (n : Nat) :
    (natChars n).foldl (fun a c => a * 10 + (c.toNat - 48)) 0 = n := by
  rw [natChars]
  by_cases h0 : n = 0
  · simp [h0]
  · rw [if_neg h0, natCharsAux_foldl n n 0 le_rfl]
    simp

theorem parseDigitsAux_digits (ds : List Char) (h : ∀ c ∈ ds, c.isDigit) :
    ∀ l acc, parseDigitsAux (ds ++ l) acc =
      parseDigitsAux l (ds.foldl (fun a c => a * 10 + (c.toNat - 48)) acc) := by
  induction ds with
  | nil => intro l acc; simp
  | cons c cs ih =>
    intro l acc
    have hc : c.isDigit := h c (by simp)
    rw [List.cons_append, parseDigitsAux, if_pos hc, List.foldl_cons]
    exact ih (fun d hd => h d (by simp [hd])) l _

theorem parseDigitsAux_stop (l : List Char) (acc : Nat) (h : headNotDigit l = true) :
    parseDigitsAux l acc = (acc, l) := by
  cases l with
  | nil => rfl
  | cons c rest =>
    rw [headNotDigit] at h
    rw [parseDigitsAux, if_neg (by simpa using h)]

theorem parseDigits_natChars (n : Nat) (l : List Char) (h : headNotDigit l = true) :
    parseDigitsAux (natChars n ++ l) 0 = (n, l) := by
  rw [parseDigitsAux_digits (natChars n) (natChars_digits n) l 0,
    parseDigitsAux_stop l _ h, natChars_foldl]

end GoCommon

/-! ## Round-trip machinery: values -/

namespace GoCommon

theorem mk_data (s : String) : String.mk s.data = s := rfl

theorem isDigit_ne_quote {c : Char} (h : c.isDigit) : c ≠ '"' := by
  rintro rfl; exact absurd h (by decide)

theorem isDigit_ne_dash {c : Char} (h : c.isDigit) : c ≠ '-' := by
  rintro rfl; exact absurd h (by decide)

theorem parseVal_natChars (n : Nat) (l : List Char) (h : headNotDigit l = true) :
    parseVal (natChars n ++ l) = some (.int (n : Int), l) := by
  obtain ⟨d, ds, hds⟩ := List.exists_cons_of_ne_nil (natChars_ne_nil n)
  have hd : d.isDigit := natChars_digits n d (by rw [hds]; simp)
  have hp : parseDigitsAux (natChars n ++ l) 0 = (n, l) := parseDigits_natChars n l h
  rw [hds] at hp ⊢
  rw [List.cons_append] at hp ⊢
  rw [parseVal.eq_def]
  simp [isDigit_ne_quote hd, isDigit_ne_dash hd, hd, hp]

theorem parseVal_renderInt (i : Int) (l : List Char) (h : headNotDigit l = true) :
    parseVal (renderInt i ++ l) = some (.int i, l) := by
  rw [renderInt]
  by_cases hneg : i < 0
  · rw [if_pos hneg]
    obtain ⟨d, ds, hds⟩ := List.exists_cons_of_ne_nil (natChars_ne_nil (-i).toNat)
    have hd : d.isDigit := natChars_digits _ d (by rw [hds]; simp)
    have hp := parseDigits_natChars (-i).toNat l h
    rw [hds] at hp ⊢
    rw [List.cons_append] at hp
    rw [List.cons_append, List.cons_append, parseVal.eq_def]
    simp [hd, hp]
    omega
  · rw [if_neg hneg]
    rw [parseVal_natChars i.toNat l h]
    rw [Int.toNat_of_nonneg (by omega)]

theorem parseVal_renderVal (v : GoVal) (l : List Char) (h : headNotDigit l = true) :
    parseVal (renderVal v ++ l) = some (v, l) := by
  cases v with
  | str s =>
    rw [renderVal, renderString, List.cons_append, List.append_assoc,
      List.singleton_append, parseVal.eq_def]
    simp [parseStrAux_escapeChars s.data l, mk_data]
  | int i => exact parseVal_renderInt i l h

end GoCommon

/-! ## Round-trip machinery: object members -/

namespace GoCommon

theorem lbrace_eq : lbrace = '\x7b' := rfl

theorem rbrace_eq : rbrace = '\x7d' := rfl

theorem renderMembers_single (p : String × GoVal) : renderMembers [p] = renderPair p := by
  rw [renderMembers]

theorem renderMembers_cons (p : String × GoVal) (m : List (String × GoVal)) (hm : m ≠ []) :
    renderMembers (p :: m) = renderPair p ++ ',' :: renderMembers m := by
  cases m with
  | nil => exact absurd rfl hm
  | cons q rest => rw [renderMembers]

theorem parseMembers_single (p : String × GoVal) (l : List Char) (extra : Nat) :
    parseMembers (extra + 1) (renderPair p ++ rbrace :: l) = some ([p], l) := by
  rw [renderPair, renderString, parseMembers.eq_def]
  simp only [rbrace_eq, List.cons_append, List.append_assoc, List.singleton_append]
  simp [parseStrAux_escapeChars,
    parseVal_renderVal p.2 ('\x7d' :: l) (by rw [headNotDigit]; decide), mk_data]

theorem parseMembers_cons (p : String × GoVal) (m : List (String × GoVal))
    (l : List Char) (extra : Nat)
    (ih : parseMembers (m.length + extra) (renderMembers m ++ rbrace :: l) = some (m, l)) :
    parseMembers (m.length + extra + 1)
      (renderPair p ++ ',' :: (renderMembers m ++ rbrace :: l)) = some (p :: m, l) := by
  rw [renderPair, renderString, parseMembers.eq_def]
  simp only [rbrace_eq, List.cons_append, List.append_assoc, List.singleton_append] at ih ⊢
  simp [parseStrAux_escapeChars,
    parseVal_renderVal p.2 (',' :: (renderMembers m ++ '\x7d' :: l))
      (by rw [headNotDigit]; decide),
    mk_data, ih]

theorem parseMembers_render (m : List (String × GoVal)) (l : List Char) :
    ∀ extra : Nat, m ≠ [] →
      parseMembers (m.length + extra) (renderMembers m ++ rbrace :: l) = some (m, l) := by
  induction m with
  | nil => intro extra h; exact absurd rfl h
  | cons p rest ih =>
    intro extra _
    cases rest with
    | nil =>
      have hfuel : ([p] : List (String × GoVal)).length + extra = extra + 1 := by
        simp [Nat.add_comm]
      rw [hfuel, renderMembers_single]
      exact parseMembers_single p l extra
    | cons q rest' =>
      have hfuel : (p :: q :: rest').length + extra = (q :: rest').length + extra + 1 := by
        simp [List.length]
        omega
      rw [hfuel, renderMembers_cons p (q :: rest') (by simp), List.append_assoc]
      exact parseMembers_cons p (q :: rest') l extra (ih extra (by simp))

end GoCommon

/-! ## Round-trip machinery: whole objects and lines -/

namespace GoCommon

theorem renderPair_length_pos (p : String × GoVal) : 0 < (renderPair p).length := by
  rw [renderPair, renderString]
  simp

theorem renderMembers_length_le (m : List (String × GoVal)) :
    m.length ≤ (renderMembers m).length := by
  induction m with
  | nil => simp [renderMembers]
  | cons p rest ih =>
    cases rest with
    | nil =>
      rw [renderMembers_single]
      simpa using renderPair_length_pos p
    | cons q rest' =>
      rw [renderMembers_cons p (q :: rest') (by simp)]
      have h1 := renderPair_length_pos p
      simp only [List.length_append, List.length_cons] at ih ⊢
      omega

theorem renderMembers_head_quote (p : String × GoVal) (m : List (String × GoVal)) :
    ∃ t, renderMembers (p :: m) = '"' :: t := by
  cases m with
  | nil =>
    rw [renderMembers_single, renderPair, renderString]
    exact ⟨_, rfl⟩
  | cons q rest =>
    rw [renderMembers_cons p (q :: rest) (by simp), renderPair, renderString]
    exact ⟨_, rfl⟩

theorem parseObj_renderObj (m : List (String × GoVal)) (l : List Char) :
    parseObj (renderObj m ++ l) = some (m, l) := by
  rw [renderObj]
  cases m with
  | nil =>
    rw [show renderMembers [] = [] from by rw [renderMembers]]
    rw [parseObj.eq_def]
    simp [lbrace_eq, rbrace_eq]
  | cons p rest =>
    have hlen : (p :: rest).length ≤ (renderMembers (p :: rest) ++ rbrace :: l).length := by
      have h := renderMembers_length_le (p :: rest)
      simp only [List.length_append, List.length_cons] at h ⊢
      omega
    have hpm := parseMembers_render (p :: rest) l
      ((renderMembers (p :: rest) ++ rbrace :: l).length - (p :: rest).length) (by simp)
    rw [Nat.add_sub_cancel' hlen] at hpm
    obtain ⟨t, ht⟩ := renderMembers_head_quote p rest
    rw [parseObj.eq_def]
    simp only [lbrace_eq, rbrace_eq, List.cons_append, List.append_assoc,
      List.singleton_append] at hpm ⊢
    rw [ht] at hpm ⊢
    simp only [List.cons_append] at hpm ⊢
    simp
    convert hpm using 2
    simp only [List.length_cons, List.length_append]

theorem jsonParseLine_render (m : List (String × GoVal)) :
    jsonParseLine (String.mk (renderObj m) ++ "\n") = some m := by
  have hdata : (String.mk (renderObj m) ++ "\n").data = renderObj m ++ ['\n'] :=
    String.data_append _ _
  rw [jsonParseLine.eq_def, hdata, parseObj_renderObj m ['\n']]
  simp

theorem jsonParseLine_logLine (env : Env) (lg : Logger) (msg : String) (level : Int)
    (extras : List (List (String × String))) :
    jsonParseLine (logLine env lg msg level extras) =
      some (sortKeys (buildEntry env lg msg level extras)) := by
  rw [logLine]
  exact jsonParseLine_render _

end GoCommon

/-! ## Single-line property: no newline inside a serialized object -/

namespace GoCommon

theorem hexChar_ne_newline (d : Nat) (h : d < 16) : hexChar d ≠ '\n' := by
  interval_cases d <;> decide

theorem escapeChar_no_newline (c : Char) : '\n' ∉ escapeChar c := by
  rw [escapeChar]
  split_ifs with h1 h2 h3 h4 h5 h6 h7
  · decide
  · decide
  · decide
  · decide
  · decide
  · have hhi : c.toNat / 16 < 16 := by
      rcases h6 with hc | hc | hc | hc
      · subst hc; decide
      · subst hc; decide
      · subst hc; decide
      · omega
    have hlo : c.toNat % 16 < 16 := Nat.mod_lt _ (by norm_num)
    intro hmem
    simp only [List.mem_cons, List.not_mem_nil, or_false] at hmem
    rcases hmem with h | h | h | h | h | h
    · exact absurd h (by decide)
    · exact absurd h (by decide)
    · exact absurd h (by decide)
    · exact absurd h (by decide)
    · exact hexChar_ne_newline _ hhi h.symm
    · exact hexChar_ne_newline _ hlo h.symm
  · have hlo : c.toNat % 16 < 16 := Nat.mod_lt _ (by norm_num)
    intro hmem
    simp only [List.mem_cons, List.not_mem_nil, or_false] at hmem
    rcases hmem with h | h | h | h | h | h
    · exact absurd h (by decide)
    · exact absurd h (by decide)
    · exact absurd h (by decide)
    · exact absurd h (by decide)
    · exact absurd h (by decide)
    · exact hexChar_ne_newline _ hlo h.symm
  · intro hmem
    rw [List.mem_singleton] at hmem
    exact h3 hmem.symm

theorem escapeChars_no_newline (s : List Char) : '\n' ∉ escapeChars s := by
  rw [escapeChars]
  intro h
  rw [List.mem_flatten] at h
  obtain ⟨l, hl, hmem⟩ := h
  rw [List.mem_map] at hl
  obtain ⟨c, _, rfl⟩ := hl
  exact escapeChar_no_newline c hmem

theorem renderString_no_newline (s : String) : '\n' ∉ renderString s := by
  rw [renderString]
  intro h
  rcases List.mem_cons.mp h with h | h
  · exact absurd h (by decide)
  · rcases List.mem_append.mp h with h | h
    · exact escapeChars_no_newline _ h
    · rw [List.mem_singleton] at h
      exact absurd h (by decide)

theorem natChars_no_newline (n : Nat) : '\n' ∉ natChars n :=
  fun h => absurd (natChars_digits n _ h) (by decide)

theorem renderInt_no_newline (i : Int) : '\n' ∉ renderInt i := by
  rw [renderInt]
  split_ifs
  · intro h
    rcases List.mem_cons.mp h with h | h
    · exact absurd h (by decide)
    · exact natChars_no_newline _ h
  · exact natChars_no_newline _

theorem renderVal_no_newline (v : GoVal) : '\n' ∉ renderVal v := by
  cases v with
  | str s => exact renderString_no_newline s
  | int i => exact renderInt_no_newline i

theorem renderPair_no_newline (p : String × GoVal) : '\n' ∉ renderPair p := by
  rw [renderPair]
  intro h
  rcases List.mem_append.mp h with h | h
  · exact renderString_no_newline _ h
  · rcases List.mem_cons.mp h with h | h
    · exact absurd h (by decide)
    · exact renderVal_no_newline _ h

theorem renderMembers_no_newline (m : List (String × GoVal)) : '\n' ∉ renderMembers m := by
  induction m with
  | nil => rw [renderMembers]; simp
  | cons p rest ih =>
    cases rest with
    | nil => rw [renderMembers_single]; exact renderPair_no_newline p
    | cons q r' =>
      rw [renderMembers_cons p (q :: r') (by simp)]
      intro h
      rcases List.mem_append.mp h with h | h
      · exact renderPair_no_newline p h
      · rcases List.mem_cons.mp h with h | h
        · exact absurd h (by decide)
        · exact ih h

theorem renderObj_no_newline (m : List (String × GoVal)) : '\n' ∉ renderObj m := by
  rw [renderObj]
  intro h
  rcases List.mem_cons.mp h with h | h
  · rw [lbrace_eq] at h
    exact absurd h (by decide)
  · rcases List.mem_append.mp h with h | h
    · exact renderMembers_no_newline m h
    · rw [List.mem_singleton, rbrace_eq] at h
      exact absurd h (by decide)

theorem logLine_single_line (env : Env) (lg : Logger) (msg : String) (level : Int)
    (extras : List (List (String × String))) :
    (logLine env lg msg level extras).data.count '\n' = 1 ∧
    (logLine env lg msg level extras).data.getLast? = some '\n' := by
  have hdata : (logLine env lg msg level extras).data =
      renderObj (sortKeys (buildEntry env lg msg level extras)) ++ ['\n'] := by
    rw [logLine]
    exact String.data_append _ _
  rw [hdata]
  constructor
  · rw [List.count_append, List.count_eq_zero.mpr (renderObj_no_newline _)]
    simp
  · exact List.getLast?_concat _

end GoCommon

/-! ## Permutation and key membership of the entry map -/

namespace GoCommon

theorem insertSorted_perm (p : String × GoVal) (l : List (String × GoVal)) :
    List.Perm (insertSorted p l) (p :: l) := by
  induction l with
  | nil => exact List.Perm.refl _
  | cons q rest ih =>
    rw [insertSorted]
    split_ifs with h
    · exact List.Perm.refl _
    · exact (List.Perm.cons q ih).trans (List.Perm.swap p q rest)

theorem sortKeys_perm (m : List (String × GoVal)) : List.Perm (sortKeys m) m := by
  induction m with
  | nil => exact List.Perm.refl _
  | cons p rest ih =>
    rw [sortKeys]
    exact (insertSorted_perm p (sortKeys rest)).trans (List.Perm.cons p ih)

theorem mem_keysOf_sortKeys (k : String) (m : List (String × GoVal)) :
    k ∈ keysOf (sortKeys m) ↔ k ∈ keysOf m :=
  ((sortKeys_perm m).map Prod.fst).mem_iff

theorem mem_keysOf_upsert_self (m : List (String × GoVal)) (k : String) (v : GoVal) :
    k ∈ keysOf (upsert m k v) := by
  rw [upsert, keysOf]
  split_ifs with h
  · obtain ⟨p, hp, hpk⟩ := List.mem_map.mp h
    exact List.mem_map.mpr ⟨(k, v), List.mem_map.mpr ⟨p, hp, by rw [if_pos hpk]⟩, rfl⟩
  · rw [List.map_append]
    simp

theorem mem_keysOf_upsert_mono (m : List (String × GoVal)) (k k' : String) (v : GoVal)
    (h : k ∈ keysOf m) : k ∈ keysOf (upsert m k' v) := by
  rw [keysOf] at h
  rw [upsert, keysOf]
  split_ifs with h'
  · obtain ⟨p, hp, hpk⟩ := List.mem_map.mp h
    by_cases hk : p.1 = k'
    · exact List.mem_map.mpr
        ⟨(k', v), List.mem_map.mpr ⟨p, hp, by rw [if_pos hk]⟩, by rw [← hpk, hk]⟩
    · exact List.mem_map.mpr ⟨p, List.mem_map.mpr ⟨p, hp, by rw [if_neg hk]⟩, hpk⟩
  · rw [List.map_append]
    exact List.mem_append_left _ h

theorem mem_keysOf_foldl_upsert_mono (ex : List (String × String)) :
    ∀ (m : List (String × GoVal)) (k : String), k ∈ keysOf m →
      k ∈ keysOf (ex.foldl (fun m p => upsert m p.1 (.str p.2)) m) := by
  induction ex with
  | nil => intro m k h; simpa using h
  | cons p rest ih =>
    intro m k h
    exact ih _ k (mem_keysOf_upsert_mono m k p.1 _ h)

theorem mem_keysOf_foldl_upsert_of_mem (ex : List (String × String)) :
    ∀ (m : List (String × GoVal)) (p : String × String), p ∈ ex →
      p.1 ∈ keysOf (ex.foldl (fun m q => upsert m q.1 (.str q.2)) m) := by
  induction ex with
  | nil => intro m p hp; simp at hp
  | cons q rest ih =>
    intro m p hp
    rcases List.mem_cons.mp hp with h | h
    · rw [h]
      exact mem_keysOf_foldl_upsert_mono rest _ q.1 (mem_keysOf_upsert_self m q.1 _)
    · exact ih _ p h

theorem mem_keysOf_foldl_extras_mono (extras : List (List (String × String))) :
    ∀ (m : List (String × GoVal)) (k : String), k ∈ keysOf m →
      k ∈ keysOf (extras.foldl (fun m ex => ex.foldl (fun m q => upsert m q.1 (.str q.2)) m) m) := by
  induction extras with
  | nil => intro m k h; simpa using h
  | cons ex rest ih =>
    intro m k h
    exact ih _ k (mem_keysOf_foldl_upsert_mono ex m k h)

theorem mem_keysOf_foldl_extras (extras : List (List (String × String))) :
    ∀ (m : List (String × GoVal)) (ex : List (String × String)), ex ∈ extras →
      ∀ p ∈ ex,
        p.1 ∈ keysOf (extras.foldl (fun m ex => ex.foldl (fun m q => upsert m q.1 (.str q.2)) m) m) := by
  induction extras with
  | nil => intro m ex hex; simp at hex
  | cons e rest ih =>
    intro m ex hex p hp
    rcases List.mem_cons.mp hex with h | h
    · rw [h] at hp
      exact mem_keysOf_foldl_extras_mono rest _ p.1 (mem_keysOf_foldl_upsert_of_mem e _ p hp)
    · exact ih _ ex h p hp

theorem reserved_mem_keysOf_buildEntry (env : Env) (lg : Logger) (msg : String) (level : Int)
    (extras : List (List (String × String))) (k : String) (hk : k ∈ reservedKeys) :
    k ∈ keysOf (buildEntry env lg msg level extras) := by
  rw [buildEntry]
  apply mem_keysOf_foldl_extras_mono
  rw [reservedKeys] at hk
  rw [keysOf]
  fin_cases hk <;> simp

theorem extras_mem_keysOf_buildEntry (env : Env) (lg : Logger) (msg : String) (level : Int)
    (extras : List (List (String × String))) (ex : List (String × String)) (hex : ex ∈ extras)
    (p : String × String) (hp : p ∈ ex) :
    p.1 ∈ keysOf (buildEntry env lg msg level extras) := by
  rw [buildEntry]
  exact mem_keysOf_foldl_extras extras _ ex hex p hp

end GoCommon

/-! ## Claim theorem: single-line JSON round-trip (C3) -/

namespace GoCommon

/-- C3: every successful non-degraded write of Log is exactly one
line: a single JSON object terminated by a single newline (one newline
character, at the last position) that parses back to the entry mapping,
which contains all seven reserved field names plus the key of every
extra field supplied by the caller. -/
theorem log_single_line_json_roundtrip (env : Env) (lg : Logger) (msg : String)
    (level : Int) (extras : List (List (String × String)))
    (hw : env.write lg.writer (logLine env lg msg level extras) = none) :
    Log env lg msg level extras =
      .done ⟨lg, [(lg.writer, logLine env lg msg level extras)], none⟩ ∧
    (logLine env lg msg level extras).data.count '\n' = 1 ∧
    (logLine env lg msg level extras).data.getLast? = some '\n' ∧
    jsonParseLine (logLine env lg msg level extras) =
      some (sortKeys (buildEntry env lg msg level extras)) ∧
    (∀ k ∈ reservedKeys, k ∈ keysOf (sortKeys (buildEntry env lg msg level extras))) ∧
    (∀ ex ∈ extras, ∀ p ∈ ex,
      p.1 ∈ keysOf (sortKeys (buildEntry env lg msg level extras))) :=
  ⟨log_success env lg msg level extras hw,
   (logLine_single_line env lg msg level extras).1,
   (logLine_single_line env lg msg level extras).2,
   jsonParseLine_logLine env lg msg level extras,
   fun k hk => (mem_keysOf_sortKeys k _).mpr
     (reserved_mem_keysOf_buildEntry env lg msg level extras k hk),
   fun ex hex p hp => (mem_keysOf_sortKeys p.1 _).mpr
     (extras_mem_keysOf_buildEntry env lg msg level extras ex hex p hp)⟩

/-- Witness for C3 at a concrete console logger with one extras map. -/
theorem log_single_line_json_roundtrip_witness :
    envW.write lgW.writer (logLine envW lgW "hello" TraceLevel [[("a", "1")]]) = none ∧
    (Log envW lgW "hello" TraceLevel [[("a", "1")]] =
      .done ⟨lgW, [(lgW.writer, logLine envW lgW "hello" TraceLevel [[("a", "1")]])], none⟩ ∧
     (logLine envW lgW "hello" TraceLevel [[("a", "1")]]).data.count '\n' = 1 ∧
     (logLine envW lgW "hello" TraceLevel [[("a", "1")]]).data.getLast? = some '\n' ∧
     jsonParseLine (logLine envW lgW "hello" TraceLevel [[("a", "1")]]) =
       some (sortKeys (buildEntry envW lgW "hello" TraceLevel [[("a", "1")]])) ∧
     (∀ k ∈ reservedKeys,
       k ∈ keysOf (sortKeys (buildEntry envW lgW "hello" TraceLevel [[("a", "1")]]))) ∧
     (∀ ex ∈ [[("a", "1")]], ∀ p ∈ ex,
       p.1 ∈ keysOf (sortKeys (buildEntry envW lgW "hello" TraceLevel [[("a", "1")]])))) :=
  ⟨rfl, log_single_line_json_roundtrip envW lgW "hello" TraceLevel [[("a", "1")]] rfl⟩

end GoCommon

/-! ## Lookup machinery for the override claim -/

namespace GoCommon

theorem alookup_map_replace_self (m : List (String × GoVal)) (k : String) (v : GoVal)
    (h : k ∈ m.map Prod.fst) :
    alookup k (m.map fun p => if p.1 = k then (k, v) else p) = some v := by
  induction m with
  | nil => simp at h
  | cons q rest ih =>
    rw [List.map_cons]
    by_cases hq : q.1 = k
    · rw [if_pos hq, alookup, if_pos rfl]
    · rw [if_neg hq, alookup, if_neg hq]
      apply ih
      rcases List.mem_map.mp h with ⟨p, hp, hpk⟩
      rcases List.mem_cons.mp hp with hh | hh
      · exact absurd (hh ▸ hpk) hq
      · exact List.mem_map.mpr ⟨p, hh, hpk⟩

theorem alookup_append_single_self (m : List (String × GoVal)) (k : String) (v : GoVal) :
    alookup k (m ++ [(k, v)]) = some v ∨ ∃ w, alookup k m = some w := by
  induction m with
  | nil => exact Or.inl (by rw [List.nil_append, alookup, if_pos rfl])
  | cons q rest ih =>
    by_cases hq : q.1 = k
    · exact Or.inr ⟨q.2, by rw [alookup, if_pos hq]⟩
    · rw [List.cons_append, alookup, if_neg hq]
      rcases ih with h | ⟨w, hw⟩
      · exact Or.inl h
      · exact Or.inr ⟨w, by rw [alookup, if_neg hq, hw]⟩

theorem alookup_none_of_not_mem (m : List (String × GoVal)) (k : String)
    (h : k ∉ m.map Prod.fst) : alookup k m = none := by
  induction m with
  | nil => rfl
  | cons q rest ih =>
    have hq : ¬ (q.1 = k) := fun hq => h (List.mem_map.mpr ⟨q, List.mem_cons_self q rest, hq⟩)
    rw [alookup, if_neg hq]
    apply ih
    intro hk
    rcases List.mem_map.mp hk with ⟨p, hp, hpk⟩
    exact h (List.mem_map.mpr ⟨p, List.mem_cons_of_mem q hp, hpk⟩)

theorem alookup_upsert_self (m : List (String × GoVal)) (k : String) (v : GoVal) :
    alookup k (upsert m k v) = some v := by
  rw [upsert]
  split_ifs with h
  · exact alookup_map_replace_self m k v h
  · rcases alookup_append_single_self m k v with hh | ⟨w, hw⟩
    · exact hh
    · exact absurd (alookup_none_of_not_mem m k h) (by rw [hw]; simp)

theorem alookup_map_replace_ne (m : List (String × GoVal)) (k k' : String) (v : GoVal)
    (h : k ≠ k') :
    alookup k (m.map fun p => if p.1 = k' then (k', v) else p) = alookup k m := by
  induction m with
  | nil => rfl
  | cons q rest ih =>
    rw [List.map_cons]
    by_cases hq : q.1 = k'
    · have h1 : ¬ ((k', v).1 = k) := fun hk => h hk.symm
      have h2 : ¬ (q.1 = k) := fun hqk => h (hqk.symm.trans hq)
      rw [if_pos hq, alookup, if_neg h1, ih, alookup, if_neg h2]
    · rw [if_neg hq, alookup, alookup]
      by_cases hqk : q.1 = k
      · rw [if_pos hqk, if_pos hqk]
      · rw [if_neg hqk, if_neg hqk, ih]

theorem alookup_append_single_ne (m : List (String × GoVal)) (k k' : String) (v : GoVal)
    (h : k ≠ k') : alookup k (m ++ [(k', v)]) = alookup k m := by
  induction m with
  | nil =>
    have hk : ¬ (k' = k) := fun hk => h hk.symm
    simp only [List.nil_append, alookup, if_neg hk]
  | cons q rest ih =>
    rw [List.cons_append, alookup, alookup]
    by_cases hq : q.1 = k
    · rw [if_pos hq, if_pos hq]
    · rw [if_neg hq, if_neg hq]
      exact ih

theorem alookup_upsert_ne (m : List (String × GoVal)) (k k' : String) (v : GoVal)
    (h : k ≠ k') : alookup k (upsert m k' v) = alookup k m := by
  rw [upsert]
  split_ifs with h'
  · exact alookup_map_replace_ne m k k' v h
  · exact alookup_append_single_ne m k k' v h

end GoCommon

/-! ## Fold characterization: last extras mapping wins -/

namespace GoCommon

theorem mapVal_foldl_acc (rest : List (String × String)) :
    ∀ (acc : Option String) (k : String),
      rest.foldl (fun acc p => if p.1 = k then some p.2 else acc) acc =
        match mapVal rest k with
        | some v => some v
        | none => acc := by
  induction rest with
  | nil => intro acc k; rfl
  | cons q rs ih =>
    intro acc k
    rw [List.foldl_cons, ih]
    have hm : mapVal (q :: rs) k =
        match mapVal rs k with
        | some v => some v
        | none => if q.1 = k then some q.2 else none := by
      rw [mapVal, List.foldl_cons, ih]
    rw [hm]
    by_cases hq : q.1 = k <;> cases h : mapVal rs k <;> simp [hq, h]

theorem lastVal_foldl_acc (rest : List (List (String × String))) :
    ∀ (acc : Option String) (k : String),
      rest.foldl (fun acc ex => match mapVal ex k with
        | some v => some v
        | none => acc) acc =
        match lastVal rest k with
        | some v => some v
        | none => acc := by
  induction rest with
  | nil => intro acc k; rfl
  | cons e rs ih =>
    intro acc k
    rw [List.foldl_cons, ih]
    have hm : lastVal (e :: rs) k =
        match lastVal rs k with
        | some v => some v
        | none => match mapVal e k with
          | some v => some v
          | none => none := by
      rw [lastVal, List.foldl_cons, ih]
    rw [hm]
    cases hme : mapVal e k <;> cases h : lastVal rs k <;> simp [hme, h]

theorem alookup_foldl_upsert (ex : List (String × String)) :
    ∀ (m : List (String × GoVal)) (k : String),
      alookup k (ex.foldl (fun m p => upsert m p.1 (.str p.2)) m) =
        match mapVal ex k with
        | some v => some (.str v)
        | none => alookup k m := by
  induction ex with
  | nil => intro m k; rfl
  | cons p rest ih =>
    intro m k
    rw [List.foldl_cons, ih]
    have hm : mapVal (p :: rest) k =
        match mapVal rest k with
        | some v => some v
        | none => if p.1 = k then some p.2 else none := by
      rw [mapVal, List.foldl_cons, mapVal_foldl_acc]
    rw [hm]
    by_cases hp : p.1 = k <;> cases h : mapVal rest k <;> simp [hp, h]
    · rw [← hp, alookup_upsert_self]
    · rw [alookup_upsert_ne m k p.1 _ (fun hk => hp hk.symm)]

theorem alookup_foldl_extras (extras : List (List (String × String))) :
    ∀ (m : List (String × GoVal)) (k : String),
      alookup k (extras.foldl (fun m ex => ex.foldl (fun m p => upsert m p.1 (.str p.2)) m) m) =
        match lastVal extras k with
        | some v => some (.str v)
        | none => alookup k m := by
  induction extras with
  | nil => intro m k; rfl
  | cons e rest ih =>
    intro m k
    rw [List.foldl_cons, ih]
    have hm : lastVal (e :: rest) k =
        match lastVal rest k with
        | some v => some v
        | none => match mapVal e k with
          | some v => some v
          | none => none := by
      rw [lastVal, List.foldl_cons, lastVal_foldl_acc]
    rw [hm, alookup_foldl_upsert e m k]
    cases hme : mapVal e k <;> cases h : lastVal rest k <;> simp [hme, h]

theorem alookup_buildEntry (env : Env) (lg : Logger) (msg : String) (level : Int)
    (extras : List (List (String × String))) (k : String) (v : String)
    (h : lastVal extras k = some v) :
    alookup k (buildEntry env lg msg level extras) = some (.str v) := by
  rw [buildEntry, alookup_foldl_extras, h]

end GoCommon

/-! ## Nodup keys and lookup under permutation -/

namespace GoCommon

theorem keysOf_map_replace (m : List (String × GoVal)) (k : String) (v : GoVal) :
    keysOf (m.map fun p => if p.1 = k then (k, v) else p) = keysOf m := by
  rw [keysOf, keysOf, List.map_map]
  apply List.map_congr_left
  intro p _
  simp only [Function.comp_apply]
  by_cases hq : p.1 = k
  · rw [if_pos hq]
    exact hq.symm
  · rw [if_neg hq]

theorem nodup_keysOf_upsert (m : List (String × GoVal)) (k : String) (v : GoVal)
    (h : (keysOf m).Nodup) : (keysOf (upsert m k v)).Nodup := by
  rw [upsert]
  split_ifs with h'
  · rw [keysOf_map_replace]
    exact h
  · rw [keysOf, List.map_append]
    rw [keysOf] at h
    simp only [List.map_cons, List.map_nil]
    rw [List.nodup_append]
    exact ⟨h, List.nodup_singleton k, by simpa using fun hk => h' hk⟩

theorem nodup_keysOf_foldl_upsert (ex : List (String × String)) :
    ∀ (m : List (String × GoVal)), (keysOf m).Nodup →
      (keysOf (ex.foldl (fun m p => upsert m p.1 (.str p.2)) m)).Nodup := by
  induction ex with
  | nil => intro m h; exact h
  | cons p rest ih =>
    intro m h
    exact ih _ (nodup_keysOf_upsert m p.1 _ h)

theorem nodup_keysOf_foldl_extras (extras : List (List (String × String))) :
    ∀ (m : List (String × GoVal)), (keysOf m).Nodup →
      (keysOf (extras.foldl
        (fun m ex => ex.foldl (fun m p => upsert m p.1 (.str p.2)) m) m)).Nodup := by
  induction extras with
  | nil => intro m h; exact h
  | cons e rest ih =>
    intro m h
    exact ih _ (nodup_keysOf_foldl_upsert e m h)

theorem nodup_keysOf_buildEntry (env : Env) (lg : Logger) (msg : String) (level : Int)
    (extras : List (List (String × String))) :
    (keysOf (buildEntry env lg msg level extras)).Nodup := by
  rw [buildEntry]
  apply nodup_keysOf_foldl_extras
  rw [keysOf]
  simp

theorem mem_of_alookup_some (m : List (String × GoVal)) (k : String) (v : GoVal)
    (h : alookup k m = some v) : (k, v) ∈ m := by
  induction m with
  | nil => simp [alookup] at h
  | cons q rest ih =>
    rw [alookup] at h
    by_cases hq : q.1 = k
    · rw [if_pos hq] at h
      have hqv : q = (k, v) := Prod.ext hq (Option.some.inj h)
      rw [← hqv]
      exact List.mem_cons_self _ _
    · rw [if_neg hq] at h
      exact List.mem_cons_of_mem q (ih h)

theorem alookup_some_of_mem (m : List (String × GoVal)) (k : String) (v : GoVal)
    (hnd : (keysOf m).Nodup) (h : (k, v) ∈ m) : alookup k m = some v := by
  induction m with
  | nil => simp at h
  | cons q rest ih =>
    rw [keysOf, List.map_cons, List.nodup_cons] at hnd
    rcases List.mem_cons.mp h with hh | hh
    · rw [alookup, ← hh]
      simp
    · have hq : ¬ (q.1 = k) := by
        intro hqk
        apply hnd.1
        rw [hqk]
        exact List.mem_map.mpr ⟨(k, v), hh, rfl⟩
      rw [alookup, if_neg hq]
      exact ih hnd.2 hh

theorem alookup_none_iff (m : List (String × GoVal)) (k : String) :
    alookup k m = none ↔ k ∉ keysOf m := by
  constructor
  · intro h hk
    induction m with
    | nil => simp [keysOf] at hk
    | cons q rest ih =>
      rw [alookup] at h
      by_cases hq : q.1 = k
      · rw [if_pos hq] at h
        exact Option.noConfusion h
      · rw [if_neg hq] at h
        apply ih h
        rw [keysOf, List.map_cons, List.mem_cons] at hk
        rcases hk with hk | hk
        · exact absurd hk.symm hq
        · rw [keysOf]
          exact hk
  · intro h
    exact alookup_none_of_not_mem m k h

theorem alookup_perm (m1 m2 : List (String × GoVal)) (hperm : List.Perm m1 m2)
    (hnd : (keysOf m1).Nodup) (k : String) : alookup k m1 = alookup k m2 := by
  have hnd2 : (keysOf m2).Nodup := (hperm.map Prod.fst).nodup hnd
  cases h : alookup k m1 with
  | none =>
    rw [alookup_none_iff] at h
    rw [Eq.comm, alookup_none_iff]
    intro hk
    exact h (((hperm.map Prod.fst).mem_iff).mpr hk)
  | some v =>
    exact (alookup_some_of_mem m2 k v hnd2 (hperm.mem_iff.mp (mem_of_alookup_some m1 k v h))).symm

end GoCommon

/-! ## Claim theorem: extras override in call order (C4) -/

namespace GoCommon

/-- C4: extras mappings are applied in call order; the value a key ends
up with in the entry map, and hence in the serialized record (which
parses back to the sorted entry map), is the value from the last
mapping containing that key, overwriting earlier mappings and any
reserved field of the same name. -/
theorem extras_override_in_record (env : Env) (lg : Logger) (msg : String) (level : Int)
    (extras : List (List (String × String))) (k : String) (v : String)
    (h : lastVal extras k = some v) :
    alookup k (buildEntry env lg msg level extras) = some (.str v) ∧
    alookup k (sortKeys (buildEntry env lg msg level extras)) = some (.str v) ∧
    jsonParseLine (logLine env lg msg level extras) =
      some (sortKeys (buildEntry env lg msg level extras)) := by
  have h1 := alookup_buildEntry env lg msg level extras k v h
  refine ⟨h1, ?_, jsonParseLine_logLine env lg msg level extras⟩
  have hnd : (keysOf (sortKeys (buildEntry env lg msg level extras))).Nodup :=
    ((sortKeys_perm _).map Prod.fst).symm.nodup
      (nodup_keysOf_buildEntry env lg msg level extras)
  rw [alookup_perm (sortKeys _) _ (sortKeys_perm _) hnd k]
  exact h1

/-- Witness for C4: the key a collides across two mappings (the later
one wins) and the key msg overrides the reserved field. -/
theorem extras_override_in_record_witness :
    lastVal [[("msg", "over"), ("a", "1")], [("a", "2")]] "a" = some "2" ∧
    lastVal [[("msg", "over"), ("a", "1")], [("a", "2")]] "msg" = some "over" ∧
    (alookup "a" (buildEntry envW lgW "hello" TraceLevel
        [[("msg", "over"), ("a", "1")], [("a", "2")]]) = some (.str "2") ∧
     alookup "a" (sortKeys (buildEntry envW lgW "hello" TraceLevel
        [[("msg", "over"), ("a", "1")], [("a", "2")]])) = some (.str "2") ∧
     jsonParseLine (logLine envW lgW "hello" TraceLevel
        [[("msg", "over"), ("a", "1")], [("a", "2")]]) =
       some (sortKeys (buildEntry envW lgW "hello" TraceLevel
        [[("msg", "over"), ("a", "1")], [("a", "2")]]))) ∧
    alookup "msg" (buildEntry envW lgW "hello" TraceLevel
        [[("msg", "over"), ("a", "1")], [("a", "2")]]) = some (.str "over") :=
  ⟨by decide, by decide,
   extras_override_in_record envW lgW "hello" TraceLevel
     [[("msg", "over"), ("a", "1")], [("a", "2")]] "a" "2" (by decide),
   (extras_override_in_record envW lgW "hello" TraceLevel
     [[("msg", "over"), ("a", "1")], [("a", "2")]] "msg" "over" (by decide)).1⟩

end GoCommon

/-! ## Substring facts and the fresh-logger claim (C6) -/

namespace GoCommon

theorem renderPair_infix_renderMembers (p : String × GoVal) (m : List (String × GoVal))
    (h : p ∈ m) : (renderPair p).IsInfix (renderMembers m) := by
  induction m with
  | nil => simp at h
  | cons q rest ih =>
    cases rest with
    | nil =>
      rw [List.mem_singleton] at h
      rw [h, renderMembers_single]
    | cons r rs =>
      rw [renderMembers_cons q (r :: rs) (by simp)]
      rcases List.mem_cons.mp h with hh | hh
      · rw [hh]
        exact (List.prefix_append _ _).isInfix
      · exact (ih hh).trans
          (((List.suffix_cons ',' _).trans (List.suffix_append _ _)).isInfix)

theorem renderPair_infix_logLine (env : Env) (lg : Logger) (msg : String) (level : Int)
    (extras : List (List (String × String))) (p : String × GoVal)
    (h : p ∈ buildEntry env lg msg level extras) :
    (renderPair p).IsInfix (logLine env lg msg level extras).data := by
  have h1 : p ∈ sortKeys (buildEntry env lg msg level extras) :=
    (sortKeys_perm _).mem_iff.mpr h
  have h2 := renderPair_infix_renderMembers p _ h1
  have hdata : (logLine env lg msg level extras).data =
      renderObj (sortKeys (buildEntry env lg msg level extras)) ++ ['\n'] := by
    rw [logLine]
    exact String.data_append _ _
  rw [hdata, renderObj]
  have i1 : (renderMembers (sortKeys (buildEntry env lg msg level extras))).IsInfix
      (renderMembers (sortKeys (buildEntry env lg msg level extras)) ++ [rbrace]) :=
    (List.prefix_append _ _).isInfix
  have i2 : (renderMembers (sortKeys (buildEntry env lg msg level extras)) ++ [rbrace]).IsInfix
      (lbrace :: (renderMembers (sortKeys (buildEntry env lg msg level extras)) ++ [rbrace])) :=
    List.infix_cons (List.infix_refl _)
  have i3 : (lbrace ::
      (renderMembers (sortKeys (buildEntry env lg msg level extras)) ++ [rbrace])).IsInfix
      ((lbrace ::
        (renderMembers (sortKeys (buildEntry env lg msg level extras)) ++ [rbrace])) ++ ['
']) :=
    (List.prefix_append _ _).isInfix
  exact ((h2.trans i1).trans i2).trans i3

/-- C6 counterexample: the claim as stated is false.  A freshly
constructed logger has threshold 0 (the Go zero value of the struct
field), not the lowest defined level TraceLevel = 10. -/
theorem fresh_logger_level_ne_lowest :
    (NewLogger envW "svc" none).LogLevel = 0 ∧ TraceLevel = 10 ∧
    (NewLogger envW "svc" none).LogLevel ≠ TraceLevel :=
  ⟨rfl, rfl, by decide⟩

/-- C6 amended: a freshly constructed logger has threshold 0, which is
at most every one of the six defined severities, so nothing is
suppressed; in particular create svc followed by trace hello writes to
the console exactly one line that contains the fragments
level:10, msg:hello and name:svc of the spec's example. -/
theorem fresh_logger_suppresses_nothing (env : Env) (name : String)
    (hw : ∀ w s, env.write w s = none) :
    (NewLogger env name none).LogLevel = 0 ∧
    (∀ s ∈ [TraceLevel, DebugLevel, InfoLevel, WarnLevel, ErrorLevel, FatalLevel],
      (NewLogger env name none).LogLevel ≤ s) ∧
    Trace env (NewLogger env "svc" none) "hello" [] =
      .done ⟨NewLogger env "svc" none,
        [(Writer.stdout, logLine env (NewLogger env "svc" none) "hello" TraceLevel [])],
        none⟩ ∧
    ("\"level\":10").data.IsInfix
      (logLine env (NewLogger env "svc" none) "hello" TraceLevel []).data ∧
    ("\"msg\":\"hello\"").data.IsInfix
      (logLine env (NewLogger env "svc" none) "hello" TraceLevel []).data ∧
    ("\"name\":\"svc\"").data.IsInfix
      (logLine env (NewLogger env "svc" none) "hello" TraceLevel []).data := by
  refine ⟨rfl, by
    intro s hs
    fin_cases hs <;>
      simp [NewLogger, newLogger, TraceLevel, DebugLevel, InfoLevel, WarnLevel,
        ErrorLevel, FatalLevel], ?_, ?_, ?_, ?_⟩
  · rw [Trace, if_pos (by norm_num [NewLogger, newLogger, TraceLevel])]
    exact log_success env _ "hello" TraceLevel [] (hw _ _)
  · have hm : ("level", GoVal.int TraceLevel) ∈
        buildEntry env (NewLogger env "svc" none) "hello" TraceLevel [] := by
      rw [buildEntry]
      simp
    have := renderPair_infix_logLine env (NewLogger env "svc" none) "hello" TraceLevel []
      ("level", GoVal.int TraceLevel) hm
    rw [show renderPair ("level", GoVal.int TraceLevel) = ("\"level\":10").data from by decide] at this
    exact this
  · have hm : ("msg", GoVal.str "hello") ∈
        buildEntry env (NewLogger env "svc" none) "hello" TraceLevel [] := by
      rw [buildEntry]
      simp
    have := renderPair_infix_logLine env (NewLogger env "svc" none) "hello" TraceLevel []
      ("msg", GoVal.str "hello") hm
    rw [show renderPair ("msg", GoVal.str "hello") = ("\"msg\":\"hello\"").data from by decide] at this
    exact this
  · have hm : ("name", GoVal.str (trimSpace "svc")) ∈
        buildEntry env (NewLogger env "svc" none) "hello" TraceLevel [] := by
      rw [buildEntry]
      simp [NewLogger, newLogger]
    have := renderPair_infix_logLine env (NewLogger env "svc" none) "hello" TraceLevel []
      ("name", GoVal.str (trimSpace "svc")) hm
    rw [show renderPair ("name", GoVal.str (trimSpace "svc")) = ("\"name\":\"svc\"").data from by decide] at this
    exact this

/-- Witness for the amended C6 in the all-success environment. -/
theorem fresh_logger_suppresses_nothing_witness :
    (∀ w s, envW.write w s = none) ∧
    ((NewLogger envW "anything" none).LogLevel = 0 ∧
     (∀ s ∈ [TraceLevel, DebugLevel, InfoLevel, WarnLevel, ErrorLevel, FatalLevel],
       (NewLogger envW "anything" none).LogLevel ≤ s) ∧
     Trace envW (NewLogger envW "svc" none) "hello" [] =
       .done ⟨NewLogger envW "svc" none,
         [(Writer.stdout, logLine envW (NewLogger envW "svc" none) "hello" TraceLevel [])],
         none⟩ ∧
     ("\"level\":10").data.IsInfix
       (logLine envW (NewLogger envW "svc" none) "hello" TraceLevel []).data ∧
     ("\"msg\":\"hello\"").data.IsInfix
       (logLine envW (NewLogger envW "svc" none) "hello" TraceLevel []).data ∧
     ("\"name\":\"svc\"").data.IsInfix
       (logLine envW (NewLogger envW "svc" none) "hello" TraceLevel []).data) :=
  ⟨fun _ _ => rfl, fresh_logger_suppresses_nothing envW "anything" (fun _ _ => rfl)⟩

end GoCommon
